import Mathlib

/-!
Verification of the radcache typed cache-accessor layer (src/cache.go).

The repository is a thin wrapper around an external redis client:
a handle (`RadCache`) carrying a store connection, a key prefix and an
optional zap logger, with JSON marshalling for the generic path,
typed getters/setters, deletion and an existence check.

Embedding notes:
* The redis client is an external collaborator; it is modelled as an
  oracle (`Db`) of response functions, one per go-redis accessor the
  source calls (`Get(...).Result()`, `Get(...).Int()`, `Set(...)`,
  `Del(...).Err()`, `Exists(...).Val()`).  Every operation additionally
  records the store calls it issues (`StoreCall`) so that statements
  about physical keys and about "no store round-trip" are expressible.
* `encoding/json` is the Go standard library, not part of src/; it is
  modelled from the spec as a JSON text renderer/parser over a generic
  structured-value type `Json` (numbers as integers; Go's float64
  number representation is abstracted).
* Error routing: `zap` logging and `log.Fatal` are modelled by the
  effect type `Eff`: `sink e` means the error was routed to the
  attached diagnostic sink, `fatal e` means `log.Fatal` terminated the
  process, `panic e` means a nil-pointer dereference of the absent
  logger (the typed getters call `rad.Logger.Error` without a nil
  check).  An operation whose effect terminates the process returns no
  value (`val = none`).
-/

/-! ## Generic structured values (the domain of the JSON path)

Modelled from the spec: `serialize` "encodes an arbitrary structured
value to a JSON text representation", `deserialize` "decodes JSON text
into a generic structured value".  `encoding/json` itself is Go
standard library, absent from src/. -/

mutual
inductive Json where
  | null : Json
  | bool : Bool → Json
  | num : Int → Json
  | str : String → Json
  | arr : JElems → Json
  | obj : JFields → Json
inductive JElems where
  | nil : JElems
  | cons : Json → JElems → JElems
inductive JFields where
  | nil : JFields
  | cons : String → Json → JFields → JFields
end

def digitChar (n : Nat) : Char :=
  match n with
  | 0 => '0' | 1 => '1' | 2 => '2' | 3 => '3' | 4 => '4'
  | 5 => '5' | 6 => '6' | 7 => '7' | 8 => '8' | 9 => '9'
  | _ => '0'

/-- Decimal digits of a natural number, most significant first. -/
def natChars (n : Nat) : List Char :=
  if n < 10 then [digitChar n]
  else natChars (n / 10) ++ [digitChar (n % 10)]
  decreasing_by exact Nat.div_lt_self (by omega) (by omega)

def intChars (i : Int) : List Char :=
  if i < 0 then '-' :: natChars (-i).toNat else natChars i.toNat

def hexDigitChar (n : Nat) : Char :=
  match n with
  | 0 => '0' | 1 => '1' | 2 => '2' | 3 => '3' | 4 => '4'
  | 5 => '5' | 6 => '6' | 7 => '7' | 8 => '8' | 9 => '9'
  | 10 => 'a' | 11 => 'b' | 12 => 'c' | 13 => 'd' | 14 => 'e' | 15 => 'f'
  | _ => '0'

/-- JSON string escaping: quote and backslash get a backslash escape,
control characters a \u00XX escape, everything else is literal. -/
def escapeChar (c : Char) : List Char :=
  if c = '"' then ['\\', '"']
  else if c = '\\' then ['\\', '\\']
  else if c.toNat < 32 then
    ['\\', 'u', '0', '0', hexDigitChar (c.toNat / 16), hexDigitChar (c.toNat % 16)]
  else [c]

def escapeChars : List Char → List Char
  | [] => []
  | c :: cs => escapeChar c ++ escapeChars cs

mutual
def renderJ : Json → List Char
  | .num i => intChars i
  | .bool false => ['f', 'a', 'l', 's', 'e']
  | .bool true => ['t', 'r', 'u', 'e']
  | .null => ['n', 'u', 'l', 'l']
  | .str s => '"' :: (escapeChars s.data ++ ['"'])
  | .arr es => '[' :: (renderElems es ++ [']'])
  | .obj fs => '{' :: (renderFields fs ++ ['}'])
def renderElems : JElems → List Char
  | .nil => []
  | .cons x .nil => renderJ x
  | .cons x xs => renderJ x ++ ',' :: renderElems xs
def renderFields : JFields → List Char
  | .nil => []
  | .cons k v .nil => '"' :: (escapeChars k.data ++ '"' :: ':' :: renderJ v)
  | .cons k v fs =>
      ('"' :: (escapeChars k.data ++ '"' :: ':' :: renderJ v)) ++ ',' :: renderFields fs
end

/-! ### The JSON parser (deserialization) -/

def hexVal (c : Char) : Option Nat :=
  if '0' ≤ c ∧ c ≤ '9' then some (c.toNat - 48)
  else if 'a' ≤ c ∧ c ≤ 'f' then some (c.toNat - 87)
  else if 'A' ≤ c ∧ c ≤ 'F' then some (c.toNat - 55)
  else none

def unescapeChar (c : Char) : Option Char :=
  if c = '"' then some '"'
  else if c = '\\' then some '\\'
  else if c = '/' then some '/'
  else if c = 'n' then some '\n'
  else if c = 't' then some '\t'
  else if c = 'r' then some '\r'
  else if c = 'b' then some (Char.ofNat 8)
  else if c = 'f' then some (Char.ofNat 12)
  else none

mutual
/-- Parse the body of a JSON string literal (the opening quote already
consumed), returning the decoded characters and the input after the
closing quote. -/
def parseStringBody : List Char → Option (List Char × List Char)
  | [] => none
  | c :: cs =>
    if c = '"' then some ([], cs)
    else if c = '\\' then parseEscape cs
    else if c.toNat < 32 then none
    else (parseStringBody cs).map fun p => (c :: p.1, p.2)
/-- Decode one escape sequence (the backslash already consumed) and
continue with the string body. -/
def parseEscape : List Char → Option (List Char × List Char)
  | [] => none
  | e :: rest =>
    if e = 'u' then
      match rest with
      | a :: b :: c2 :: d :: rest2 =>
        match hexVal a, hexVal b, hexVal c2, hexVal d with
        | some va, some vb, some vc, some vd =>
          (parseStringBody rest2).map
            fun p => (Char.ofNat (((va * 16 + vb) * 16 + vc) * 16 + vd) :: p.1, p.2)
        | _, _, _, _ => none
      | _ => none
    else
      match unescapeChar e with
      | some ch => (parseStringBody rest).map fun p => (ch :: p.1, p.2)
      | none => none
end

/-- Fold decimal digits into a natural number; stops at the first
non-digit character. -/
def parseDigits : List Char → Nat → Nat × List Char
  | [], acc => (acc, [])
  | c :: cs, acc =>
    if c.isDigit then parseDigits cs (acc * 10 + (c.toNat - 48)) else (acc, c :: cs)

def headIsDigit : List Char → Bool
  | [] => false
  | c :: _ => c.isDigit

def parseNull : List Char → Option (Json × List Char)
  | 'u' :: 'l' :: 'l' :: rest => some (.null, rest)
  | _ => none

def parseTrue : List Char → Option (Json × List Char)
  | 'r' :: 'u' :: 'e' :: rest => some (.bool true, rest)
  | _ => none

def parseFalseLit : List Char → Option (Json × List Char)
  | 'a' :: 'l' :: 's' :: 'e' :: rest => some (.bool false, rest)
  | _ => none

/-- Accepts the value list of an array when followed by `]`. -/
def arrFinish : Option (JElems × List Char) → Option (Json × List Char)
  | some (es, ']' :: rest) => some (.arr es, rest)
  | _ => none

/-- Accepts the field list of an object when followed by `\x7d`. -/
def objFinish : Option (JFields × List Char) → Option (Json × List Char)
  | some (fs, '}' :: rest) => some (.obj fs, rest)
  | _ => none

mutual
/-- Fuel-indexed JSON value parser. -/
def parseVal : Nat → List Char → Option (Json × List Char)
  | 0, _ => none
  | _ + 1, [] => none
  | f + 1, c :: cs =>
    if c = 'n' then parseNull cs
    else if c = 't' then parseTrue cs
    else if c = 'f' then parseFalseLit cs
    else if c = '"' then
      (parseStringBody cs).map fun p => (.str (String.mk p.1), p.2)
    else if c = '[' then
      if cs.head? = some ']' then some (.arr .nil, cs.tail)
      else arrFinish (parseElems f cs)
    else if c = '{' then
      if cs.head? = some '}' then some (.obj .nil, cs.tail)
      else objFinish (parseFields f cs)
    else if c = '-' then
      if headIsDigit cs then
        some (.num (-((parseDigits cs 0).1 : Int)), (parseDigits cs 0).2)
      else none
    else if c.isDigit then
      some (.num ((parseDigits (c :: cs) 0).1 : Int), (parseDigits (c :: cs) 0).2)
    else none
/-- Parse one or more comma-separated JSON values. -/
def parseElems : Nat → List Char → Option (JElems × List Char)
  | 0, _ => none
  | g + 1, input =>
    match parseVal g input with
    | none => none
    | some (v, rest) =>
      if rest.head? = some ',' then
        (parseElems g rest.tail).map fun p => (.cons v p.1, p.2)
      else some (.cons v .nil, rest)
/-- Parse one or more comma-separated string-keyed JSON fields. -/
def parseFields : Nat → List Char → Option (JFields × List Char)
  | 0, _ => none
  | g + 1, input =>
    if input.head? = some '"' then
      match parseStringBody input.tail with
      | none => none
      | some (k, rest1) =>
        if rest1.head? = some ':' then
          match parseVal g rest1.tail with
          | none => none
          | some (v, rest2) =>
            if rest2.head? = some ',' then
              (parseFields g rest2.tail).map fun p => (.cons (String.mk k) v p.1, p.2)
            else some (.cons (String.mk k) v .nil, rest2)
        else none
    else none
end

/-! ### Structural size of a JSON value (fuel bound for the parser) -/

mutual
def sizeV : Json → Nat
  | .null => 1
  | .bool _ => 1
  | .num _ => 1
  | .str _ => 1
  | .arr es => 1 + sizeL es
  | .obj fs => 1 + sizeF fs
def sizeL : JElems → Nat
  | .nil => 0
  | .cons x xs => 1 + max (sizeV x) (sizeL xs)
def sizeF : JFields → Nat
  | .nil => 0
  | .cons _ v fs => 1 + max (sizeV v) (sizeF fs)
end

/-! ## The cache accessor data model (src/cache.go) -/

/-- Errors are passed through verbatim from collaborators; modelled as
their message strings. -/
abbrev Err := String

/-- `time.Duration` (int64 nanoseconds). -/
abbrev Duration := Int

/-- A value as handed to the redis client's `Set`: the generic path
passes the marshalled JSON text, the typed paths pass the primitive
directly.  Go's `float32`/`float64` payloads are both modelled as
`Float`; the accessor never computes with them. -/
inductive RVal where
  | str : String → RVal
  | int : Int → RVal
  | int64 : Int → RVal
  | bool : Bool → RVal
  | float32 : Float → RVal
  | float64 : Float → RVal

/-- `redis.StatusCmd`, as far as the accessor observes it: the error it
carries (`SetErr`/`Err`). -/
structure StatusCmd where
  err : Option Err

/-- One request issued to the store, recorded at the store boundary
with the physical key(s) actually sent. -/
inductive StoreCall where
  | set : String → RVal → Duration → StoreCall
  | get : String → StoreCall
  | del : List String → StoreCall
  | existsQ : String → StoreCall

/-- Modelled from the spec: the external go-redis client (`*redis.Client`),
an out-of-scope collaborator.  One response oracle per accessor the
source calls: `Get(..).Result()`, `Get(..).Int()`, `Get(..).Int64()`,
`Get(..).Bool()`, `Get(..).Float32()`, `Get(..).Float64()`, `Set(..)`,
`Del(..).Err()`, `Exists(..).Val()` (the `Val()` of a failed `Exists`
is the zero count). -/
structure RedisClient where
  get : String → Except Err String
  getInt : String → Except Err Int
  getInt64 : String → Except Err Int
  getBool : String → Except Err Bool
  getFloat32 : String → Except Err Float
  getFloat64 : String → Except Err Float
  set : String → RVal → Duration → StatusCmd
  del : List String → Option Err
  existsVal : String → Int

/-- The diagnostic sink (`*zap.SugaredLogger`); only its presence is
observable to this layer. -/
abbrev ZapLogger := Unit

/-- What happened on the error-reporting path of one operation. -/
inductive Eff where
  | none : Eff
  | sink : Err → Eff
  | fatal : Err → Eff
  | panic : Err → Eff

/-- `fatal` (`log.Fatal`) and `panic` (nil-pointer dereference) do not
return control to the operation; `none` and `sink` do. -/
def Eff.continues : Eff → Bool
  | .none => true
  | .sink _ => true
  | .fatal _ => false
  | .panic _ => false

/-- `Eff.terminates e` holds when the effect abruptly ends the process
instead of returning to the caller. -/
def Eff.terminates : Eff → Bool
  | .fatal _ => true
  | .panic _ => true
  | _ => false

/-- The error value routed to the diagnostic sink, if any. -/
def Eff.routed : Eff → Option Err
  | .sink e => some e
  | _ => Option.none

/-- Result of one accessor operation: the value returned to the caller
(`none` when the process terminated inside the call), the store calls
issued, and the error-reporting effect. -/
structure OpRes (α : Type) where
  val : Option α
  calls : List StoreCall
  eff : Eff

/-- Modelled from the spec: a Go `interface{}` argument of the generic
`Set`; either a JSON-encodable structured value, or unencodable
content (cyclic references, unsupported types) on which
`json.Marshal` fails with the given error. -/
inductive GoVal where
  | json : Json → GoVal
  | unencodable : Err → GoVal

/-- Modelled from the spec: `encoding/json.Marshal` (Go standard
library, not in src/) — "encodes an arbitrary structured value to a
JSON text representation; fails ... if the value contains unencodable
content". -/
def jsonMarshal : GoVal → Except Err String
  | .json v => .ok (String.mk (renderJ v))
  | .unencodable e => .error e

/-- Modelled from the spec: `encoding/json.Unmarshal` into a generic
value — "decodes JSON text into a generic structured value; fails ...
on malformed text". -/
def jsonUnmarshal (s : String) : Except Err Json :=
  match parseVal (s.data.length + 1) s.data with
  | some (v, []) => .ok v
  | _ => .error "invalid JSON text"

structure Options where
  Prefix : String

/-- The cache handle.  `Ctx` (a `context.Background()`) carries no
behaviour at this layer and is omitted.  The Go `Db` field is nil
until `UseRedis` is called and no claim concerns operations before
attachment, so the embedded handle carries the attached client. -/
structure RadCache where
  Db : RedisClient
  Logger : Option ZapLogger
  Options : Options

def NewDefault (db : RedisClient) : RadCache :=
  { Db := db, Logger := Option.none, Options := { Prefix := "rad_" } }

def New (db : RedisClient) (opt : Options) : RadCache :=
  { Db := db, Logger := Option.none, Options := opt }

def RadCache.UseRedis (rad : RadCache) (client : RedisClient) : RadCache :=
  { rad with Db := client }

def RadCache.UseZapLogger (rad : RadCache) (logger : ZapLogger) : RadCache :=
  { rad with Logger := some logger }

def RadCache.Marshal (_rad : RadCache) (val : GoVal) : String × Option Err :=
  match jsonMarshal val with
  | .error err => ("", some err)
  | .ok re => (re, Option.none)

def RadCache.UnMarshal (_rad : RadCache) (val : String) : Option Json × Option Err :=
  match jsonUnmarshal val with
  | .error err => (Option.none, some err)
  | .ok result => (some result, Option.none)

/-- `RadCache.Error`: route to the zap logger when one is set,
otherwise `log.Fatal`. -/
def RadCache.Error (rad : RadCache) (err : Err) : Eff :=
  match rad.Logger with
  | some _ => Eff.sink err
  | Option.none => Eff.fatal err

/-- A bare `rad.Logger.Error(err)` call (no nil check, as in the typed
getters): routes when a logger is attached, dereferences a nil
pointer otherwise. -/
def zapError (logger : Option ZapLogger) (err : Err) : Eff :=
  match logger with
  | some _ => Eff.sink err
  | Option.none => Eff.panic err

/-! ### The operations (src/cache.go, lines 77-255) -/

/-- Generic `Set`: marshal, then store `SET` under the prefixed key.
On marshal failure a fresh `StatusCmd` carrying the error is returned,
the error is reported, and the store is never called. -/
def RadCache.Set (rad : RadCache) (key : String) (value : GoVal) (exp : Duration) :
    OpRes StatusCmd :=
  match rad.Marshal value with
  | (_, some err) =>
    let eff := rad.Error err
    { val := if eff.continues then some { err := some err } else Option.none
      calls := []
      eff := eff }
  | (val, Option.none) =>
    { val := some (rad.Db.set (rad.Options.Prefix ++ key) (.str val) exp)
      calls := [.set (rad.Options.Prefix ++ key) (.str val) exp]
      eff := .none }

def RadCache.SetString (rad : RadCache) (key : String) (value : String) (exp : Duration) :
    OpRes StatusCmd :=
  { val := some (rad.Db.set (rad.Options.Prefix ++ key) (.str value) exp)
    calls := [.set (rad.Options.Prefix ++ key) (.str value) exp]
    eff := .none }

def RadCache.SetInt (rad : RadCache) (key : String) (value : Int) (exp : Duration) :
    OpRes StatusCmd :=
  { val := some (rad.Db.set (rad.Options.Prefix ++ key) (.int value) exp)
    calls := [.set (rad.Options.Prefix ++ key) (.int value) exp]
    eff := .none }

def RadCache.SetInt64 (rad : RadCache) (key : String) (value : Int) (exp : Duration) :
    OpRes StatusCmd :=
  { val := some (rad.Db.set (rad.Options.Prefix ++ key) (.int64 value) exp)
    calls := [.set (rad.Options.Prefix ++ key) (.int64 value) exp]
    eff := .none }

def RadCache.SetBool (rad : RadCache) (key : String) (value : Bool) (exp : Duration) :
    OpRes StatusCmd :=
  { val := some (rad.Db.set (rad.Options.Prefix ++ key) (.bool value) exp)
    calls := [.set (rad.Options.Prefix ++ key) (.bool value) exp]
    eff := .none }

def RadCache.SetFloat32 (rad : RadCache) (key : String) (value : Float) (exp : Duration) :
    OpRes StatusCmd :=
  { val := some (rad.Db.set (rad.Options.Prefix ++ key) (.float32 value) exp)
    calls := [.set (rad.Options.Prefix ++ key) (.float32 value) exp]
    eff := .none }

def RadCache.SetFloat64 (rad : RadCache) (key : String) (value : Float) (exp : Duration) :
    OpRes StatusCmd :=
  { val := some (rad.Db.set (rad.Options.Prefix ++ key) (.float64 value) exp)
    calls := [.set (rad.Options.Prefix ++ key) (.float64 value) exp]
    eff := .none }

/-- Generic `Get`: store `GET` under the prefixed key, then unmarshal.
A store failure is reported via `rad.Error`; an unmarshal failure is
returned without being reported. -/
def RadCache.Get (rad : RadCache) (key : String) : OpRes (Option Json × Option Err) :=
  match rad.Db.get (rad.Options.Prefix ++ key) with
  | .error err =>
    let eff := rad.Error err
    { val := if eff.continues then some (Option.none, some err) else Option.none
      calls := [.get (rad.Options.Prefix ++ key)]
      eff := eff }
  | .ok result =>
    { val := some (rad.UnMarshal result)
      calls := [.get (rad.Options.Prefix ++ key)]
      eff := .none }

def RadCache.GetString (rad : RadCache) (key : String) : OpRes (String × Option Err) :=
  match rad.Db.get (rad.Options.Prefix ++ key) with
  | .error err =>
    let eff := rad.Error err
    { val := if eff.continues then some ("", some err) else Option.none
      calls := [.get (rad.Options.Prefix ++ key)]
      eff := eff }
  | .ok result =>
    { val := some (result, Option.none)
      calls := [.get (rad.Options.Prefix ++ key)]
      eff := .none }

def RadCache.GetStringOrDefault (rad : RadCache) (key : String) (val : String) :
    OpRes String :=
  let r := rad.GetString key
  match r.val with
  | Option.none => { val := Option.none, calls := r.calls, eff := r.eff }
  | some (_, some _) => { val := some val, calls := r.calls, eff := r.eff }
  | some (result, Option.none) => { val := some result, calls := r.calls, eff := r.eff }

/-- `GetInt` reports a store failure through `rad.Logger.Error`
directly — no nil check, unlike `rad.Error`. -/
def RadCache.GetInt (rad : RadCache) (key : String) : OpRes (Int × Option Err) :=
  match rad.Db.getInt (rad.Options.Prefix ++ key) with
  | .error err =>
    let eff := zapError rad.Logger err
    { val := if eff.continues then some (-1, some err) else Option.none
      calls := [.get (rad.Options.Prefix ++ key)]
      eff := eff }
  | .ok result =>
    { val := some (result, Option.none)
      calls := [.get (rad.Options.Prefix ++ key)]
      eff := .none }

def RadCache.GetIntOrDefault (rad : RadCache) (key : String) (val : Int) : OpRes Int :=
  let r := rad.GetInt key
  match r.val with
  | Option.none => { val := Option.none, calls := r.calls, eff := r.eff }
  | some (_, some _) => { val := some val, calls := r.calls, eff := r.eff }
  | some (result, Option.none) => { val := some result, calls := r.calls, eff := r.eff }

def RadCache.GetInt64 (rad : RadCache) (key : String) : OpRes (Int × Option Err) :=
  match rad.Db.getInt64 (rad.Options.Prefix ++ key) with
  | .error err =>
    let eff := zapError rad.Logger err
    { val := if eff.continues then some (-1, some err) else Option.none
      calls := [.get (rad.Options.Prefix ++ key)]
      eff := eff }
  | .ok result =>
    { val := some (result, Option.none)
      calls := [.get (rad.Options.Prefix ++ key)]
      eff := .none }

def RadCache.GetInt64OrDefault (rad : RadCache) (key : String) (val : Int) : OpRes Int :=
  let r := rad.GetInt64 key
  match r.val with
  | Option.none => { val := Option.none, calls := r.calls, eff := r.eff }
  | some (_, some _) => { val := some val, calls := r.calls, eff := r.eff }
  | some (result, Option.none) => { val := some result, calls := r.calls, eff := r.eff }

def RadCache.GetBool (rad : RadCache) (key : String) : OpRes (Bool × Option Err) :=
  match rad.Db.getBool (rad.Options.Prefix ++ key) with
  | .error err =>
    let eff := zapError rad.Logger err
    { val := if eff.continues then some (false, some err) else Option.none
      calls := [.get (rad.Options.Prefix ++ key)]
      eff := eff }
  | .ok result =>
    { val := some (result, Option.none)
      calls := [.get (rad.Options.Prefix ++ key)]
      eff := .none }

def RadCache.GetBoolOrDefault (rad : RadCache) (key : String) (val : Bool) : OpRes Bool :=
  let r := rad.GetBool key
  match r.val with
  | Option.none => { val := Option.none, calls := r.calls, eff := r.eff }
  | some (_, some _) => { val := some val, calls := r.calls, eff := r.eff }
  | some (result, Option.none) => { val := some result, calls := r.calls, eff := r.eff }

def RadCache.GetFloat32 (rad : RadCache) (key : String) : OpRes (Float × Option Err) :=
  match rad.Db.getFloat32 (rad.Options.Prefix ++ key) with
  | .error err =>
    let eff := zapError rad.Logger err
    { val := if eff.continues then some (0.0, some err) else Option.none
      calls := [.get (rad.Options.Prefix ++ key)]
      eff := eff }
  | .ok result =>
    { val := some (result, Option.none)
      calls := [.get (rad.Options.Prefix ++ key)]
      eff := .none }

def RadCache.GetFloat32OrDefault (rad : RadCache) (key : String) (val : Float) :
    OpRes Float :=
  let r := rad.GetFloat32 key
  match r.val with
  | Option.none => { val := Option.none, calls := r.calls, eff := r.eff }
  | some (_, some _) => { val := some val, calls := r.calls, eff := r.eff }
  | some (result, Option.none) => { val := some result, calls := r.calls, eff := r.eff }

def RadCache.GetFloat64 (rad : RadCache) (key : String) : OpRes (Float × Option Err) :=
  match rad.Db.getFloat64 (rad.Options.Prefix ++ key) with
  | .error err =>
    let eff := zapError rad.Logger err
    { val := if eff.continues then some (0.0, some err) else Option.none
      calls := [.get (rad.Options.Prefix ++ key)]
      eff := eff }
  | .ok result =>
    { val := some (result, Option.none)
      calls := [.get (rad.Options.Prefix ++ key)]
      eff := .none }

def RadCache.GetFloat64OrDefault (rad : RadCache) (key : String) (val : Float) :
    OpRes Float :=
  let r := rad.GetFloat64 key
  match r.val with
  | Option.none => { val := Option.none, calls := r.calls, eff := r.eff }
  | some (_, some _) => { val := some val, calls := r.calls, eff := r.eff }
  | some (result, Option.none) => { val := some result, calls := r.calls, eff := r.eff }

def RadCache.Del (rad : RadCache) (key : String) : OpRes (Option Err) :=
  match rad.Db.del [rad.Options.Prefix ++ key] with
  | some err =>
    let eff := rad.Error err
    { val := if eff.continues then some (some err) else Option.none
      calls := [.del [rad.Options.Prefix ++ key]]
      eff := eff }
  | Option.none =>
    { val := some Option.none
      calls := [.del [rad.Options.Prefix ++ key]]
      eff := .none }

/-- `DelAny` builds the prefixed key list with an append loop and
issues one batched `DEL`. -/
def RadCache.DelAny (rad : RadCache) (key : List String) : OpRes (Option Err) :=
  let keys := key.foldl (fun acc v => acc ++ [rad.Options.Prefix ++ v]) []
  match rad.Db.del keys with
  | some err =>
    let eff := rad.Error err
    { val := if eff.continues then some (some err) else Option.none
      calls := [.del keys]
      eff := eff }
  | Option.none =>
    { val := some Option.none
      calls := [.del keys]
      eff := .none }

def RadCache.Exist (rad : RadCache) (key : String) : OpRes Bool :=
  let result := rad.Db.existsVal (rad.Options.Prefix ++ key)
  if result = 1 then
    { val := some true, calls := [.existsQ (rad.Options.Prefix ++ key)], eff := .none }
  else
    { val := some false, calls := [.existsQ (rad.Options.Prefix ++ key)], eff := .none }

/-! ### An abstract store state, for "the store is unchanged" -/

/-- The store's key-value content, as far as this layer can affect it. -/
def StoreState := String → Option RVal

def applyCall (st : StoreState) : StoreCall → StoreState
  | .set k v _ => fun k2 => if k2 = k then some v else st k2
  | .del ks => fun k2 => if k2 ∈ ks then Option.none else st k2
  | .get _ => st
  | .existsQ _ => st

def applyCalls (st : StoreState) : List StoreCall → StoreState
  | [] => st
  | c :: cs => applyCalls (applyCall st c) cs

/-! ### Concrete fixtures for witnesses and counterexamples -/

/-- A client on which every request succeeds with a fixed response. -/
def okClient : RedisClient :=
  { get := fun _ => .ok "null"
    getInt := fun _ => .ok 42
    getInt64 := fun _ => .ok 42
    getBool := fun _ => .ok true
    getFloat32 := fun _ => .ok 1.5
    getFloat64 := fun _ => .ok 1.5
    set := fun _ _ _ => { err := Option.none }
    del := fun _ => Option.none
    existsVal := fun _ => 1 }

/-- A client on which every request fails with the given error (a
failed `EXISTS` reports the zero count). -/
def failClient (e : Err) : RedisClient :=
  { get := fun _ => .error e
    getInt := fun _ => .error e
    getInt64 := fun _ => .error e
    getBool := fun _ => .error e
    getFloat32 := fun _ => .error e
    getFloat64 := fun _ => .error e
    set := fun _ _ _ => { err := some e }
    del := fun _ => some e
    existsVal := fun _ => 0 }

/-- A client whose `GET` succeeds but returns text that is not JSON. -/
def badTextClient : RedisClient :=
  { okClient with get := fun _ => .ok "x" }

/-- A handle with a diagnostic sink attached. -/
def radWithSink (c : RedisClient) : RadCache :=
  { Db := c, Logger := some (), Options := { Prefix := "rad_" } }

/-- A handle with no diagnostic sink. -/
def radNoSink (c : RedisClient) : RadCache :=
  { Db := c, Logger := Option.none, Options := { Prefix := "rad_" } }

/-! ## Theorems -/

/-- The `DelAny` append loop builds exactly the prefixed key list. -/
theorem foldl_append_singleton (f : String → String) (ks : List String) (acc : List String) :
    ks.foldl (fun a v => a ++ [f v]) acc = acc ++ ks.map f := by
  induction ks generalizing acc with
  | nil => simp
  | cons k ks ih => simp [List.foldl_cons, ih]

/-- C2: `reportError` (the `Error` method) routes the error to the
diagnostic sink when one is attached, and terminates the process with
fatal-log semantics when none is attached. -/
theorem C2_reportError_routing (rad : RadCache) (e : Err) :
    (∀ l, rad.Logger = some l →
      (rad.Error e).routed = some e ∧ (rad.Error e).terminates = false) ∧
    (rad.Logger = Option.none →
      rad.Error e = Eff.fatal e ∧ (rad.Error e).terminates = true) := by
  refine ⟨fun l hl => ?_, fun h => ?_⟩
  · simp [RadCache.Error, hl, Eff.routed, Eff.terminates]
  · simp [RadCache.Error, h, Eff.terminates]

/-- Witness for C2 at a concrete handle with and without a sink. -/
theorem C2_reportError_routing_witness :
    ((radWithSink okClient).Error "boom").routed = some "boom" ∧
    (radNoSink okClient).Error "boom" = Eff.fatal "boom" :=
  ⟨((C2_reportError_routing (radWithSink okClient) "boom").1 () rfl).1,
   ((C2_reportError_routing (radNoSink okClient) "boom").2 rfl).1⟩

/-- C3: with no diagnostic sink attached, a store failure in the typed
getters `GetInt`, `GetInt64`, `GetBool`, `GetFloat32`, `GetFloat64`
dereferences the nil logger (panics), while the same situation in
`Get`, `GetString`, `Set`, `Del` and `DelAny` takes the fatal-log path
of the `Error` method. -/
theorem C3_nil_logger_panic (rad : RadCache) (key : String) (e : Err)
    (hl : rad.Logger = Option.none) :
    (rad.Db.getInt (rad.Options.Prefix ++ key) = .error e →
      (rad.GetInt key).eff = Eff.panic e ∧ (rad.GetInt key).val = Option.none) ∧
    (rad.Db.getInt64 (rad.Options.Prefix ++ key) = .error e →
      (rad.GetInt64 key).eff = Eff.panic e ∧ (rad.GetInt64 key).val = Option.none) ∧
    (rad.Db.getBool (rad.Options.Prefix ++ key) = .error e →
      (rad.GetBool key).eff = Eff.panic e ∧ (rad.GetBool key).val = Option.none) ∧
    (rad.Db.getFloat32 (rad.Options.Prefix ++ key) = .error e →
      (rad.GetFloat32 key).eff = Eff.panic e ∧ (rad.GetFloat32 key).val = Option.none) ∧
    (rad.Db.getFloat64 (rad.Options.Prefix ++ key) = .error e →
      (rad.GetFloat64 key).eff = Eff.panic e ∧ (rad.GetFloat64 key).val = Option.none) ∧
    (rad.Db.get (rad.Options.Prefix ++ key) = .error e →
      (rad.Get key).eff = Eff.fatal e ∧ (rad.GetString key).eff = Eff.fatal e) ∧
    (∀ v exp, (rad.Marshal v).2 = some e → (rad.Set key v exp).eff = Eff.fatal e) ∧
    (rad.Db.del [rad.Options.Prefix ++ key] = some e → (rad.Del key).eff = Eff.fatal e) ∧
    (∀ ks, rad.Db.del (ks.map (fun k => rad.Options.Prefix ++ k)) = some e →
      (rad.DelAny ks).eff = Eff.fatal e) := by
  refine ⟨fun h => ?_, fun h => ?_, fun h => ?_, fun h => ?_, fun h => ?_, fun h => ?_,
    fun v exp h => ?_, fun h => ?_, fun ks h => ?_⟩
  · simp [RadCache.GetInt, h, zapError, hl, Eff.continues]
  · simp [RadCache.GetInt64, h, zapError, hl, Eff.continues]
  · simp [RadCache.GetBool, h, zapError, hl, Eff.continues]
  · simp [RadCache.GetFloat32, h, zapError, hl, Eff.continues]
  · simp [RadCache.GetFloat64, h, zapError, hl, Eff.continues]
  · constructor
    · simp [RadCache.Get, h, RadCache.Error, hl, Eff.continues]
    · simp [RadCache.GetString, h, RadCache.Error, hl, Eff.continues]
  · unfold RadCache.Set
    rcases hm : rad.Marshal v with ⟨s, oe⟩
    rw [hm] at h
    simp at h
    subst h
    simp [RadCache.Error, hl]
  · simp [RadCache.Del, h, RadCache.Error, hl, Eff.continues]
  · simp only [RadCache.DelAny, foldl_append_singleton, List.nil_append]
    simp [h, RadCache.Error, hl, Eff.continues]

/-- Witness for C3 at a concrete sink-less handle over a failing store. -/
theorem C3_nil_logger_panic_witness :
    ((radNoSink (failClient "boom")).GetInt "k").eff = Eff.panic "boom" ∧
    ((radNoSink (failClient "boom")).Get "k").eff = Eff.fatal "boom" :=
  ⟨((C3_nil_logger_panic (radNoSink (failClient "boom")) "k" "boom" rfl).1 rfl).1,
   ((C3_nil_logger_panic (radNoSink (failClient "boom")) "k" "boom"
      rfl).2.2.2.2.2.1 rfl).1⟩

/-- C9: `Exist` answers true exactly when the store reports a match
count of 1 for the prefixed key; every other count (including the zero
count a failed `EXISTS` reports) yields false. -/
theorem C9_exist_iff_count_one (rad : RadCache) (key : String) :
    ((rad.Exist key).val = some true ↔
      rad.Db.existsVal (rad.Options.Prefix ++ key) = 1) ∧
    ((rad.Exist key).val = some false ↔
      rad.Db.existsVal (rad.Options.Prefix ++ key) ≠ 1) := by
  simp only [RadCache.Exist]
  split <;> simp_all

/-- C5: every store call any operation issues uses
`keyPrefix + logicalKey` as the physical key (`deleteMany` prefixes
every key of the batch), and the configuration methods that do mutate
the handle leave the prefix unchanged.  Operations are pure functions
of the handle and return no modified handle, mirroring the source,
which never assigns to `rad.Options`. -/
theorem C5_prefixed_physical_keys (rad : RadCache) (key : String) (ks : List String)
    (s : String) (i : Int) (b : Bool) (x : Float) (g : GoVal) (exp : Duration)
    (client : RedisClient) (lg : ZapLogger) :
    (rad.SetString key s exp).calls
      = [.set (rad.Options.Prefix ++ key) (.str s) exp] ∧
    (rad.SetInt key i exp).calls
      = [.set (rad.Options.Prefix ++ key) (.int i) exp] ∧
    (rad.SetInt64 key i exp).calls
      = [.set (rad.Options.Prefix ++ key) (.int64 i) exp] ∧
    (rad.SetBool key b exp).calls
      = [.set (rad.Options.Prefix ++ key) (.bool b) exp] ∧
    (rad.SetFloat32 key x exp).calls
      = [.set (rad.Options.Prefix ++ key) (.float32 x) exp] ∧
    (rad.SetFloat64 key x exp).calls
      = [.set (rad.Options.Prefix ++ key) (.float64 x) exp] ∧
    (rad.Set key g exp).calls
      = (match (rad.Marshal g).2 with
         | some _ => []
         | Option.none => [.set (rad.Options.Prefix ++ key) (.str (rad.Marshal g).1) exp]) ∧
    (rad.Get key).calls = [.get (rad.Options.Prefix ++ key)] ∧
    (rad.GetString key).calls = [.get (rad.Options.Prefix ++ key)] ∧
    (rad.GetInt key).calls = [.get (rad.Options.Prefix ++ key)] ∧
    (rad.GetInt64 key).calls = [.get (rad.Options.Prefix ++ key)] ∧
    (rad.GetBool key).calls = [.get (rad.Options.Prefix ++ key)] ∧
    (rad.GetFloat32 key).calls = [.get (rad.Options.Prefix ++ key)] ∧
    (rad.GetFloat64 key).calls = [.get (rad.Options.Prefix ++ key)] ∧
    (rad.Del key).calls = [.del [rad.Options.Prefix ++ key]] ∧
    (rad.DelAny ks).calls = [.del (ks.map (fun k => rad.Options.Prefix ++ k))] ∧
    (rad.Exist key).calls = [.existsQ (rad.Options.Prefix ++ key)] ∧
    (rad.UseRedis client).Options.Prefix = rad.Options.Prefix ∧
    (rad.UseZapLogger lg).Options.Prefix = rad.Options.Prefix := by
  refine ⟨rfl, rfl, rfl, rfl, rfl, rfl, ?_, ?_, ?_, ?_, ?_, ?_, ?_, ?_, ?_, ?_, ?_, rfl, rfl⟩
  · rcases hm : rad.Marshal g with ⟨t, oe⟩
    cases oe <;> simp [RadCache.Set, hm]
  · cases h : rad.Db.get (rad.Options.Prefix ++ key) <;> simp [RadCache.Get, h]
  · cases h : rad.Db.get (rad.Options.Prefix ++ key) <;> simp [RadCache.GetString, h]
  · cases h : rad.Db.getInt (rad.Options.Prefix ++ key) <;> simp [RadCache.GetInt, h]
  · cases h : rad.Db.getInt64 (rad.Options.Prefix ++ key) <;> simp [RadCache.GetInt64, h]
  · cases h : rad.Db.getBool (rad.Options.Prefix ++ key) <;> simp [RadCache.GetBool, h]
  · cases h : rad.Db.getFloat32 (rad.Options.Prefix ++ key) <;>
      simp [RadCache.GetFloat32, h]
  · cases h : rad.Db.getFloat64 (rad.Options.Prefix ++ key) <;>
      simp [RadCache.GetFloat64, h]
  · cases h : rad.Db.del [rad.Options.Prefix ++ key] <;> simp [RadCache.Del, h]
  · simp only [RadCache.DelAny, foldl_append_singleton, List.nil_append]
    cases h : rad.Db.del (ks.map (fun k => rad.Options.Prefix ++ k)) <;> simp [h]
  · simp only [RadCache.Exist]
    split <;> rfl

/-- C7: whenever a diagnostic sink is attached (so the failing typed
getter returns to its caller instead of terminating the process), the
value returned alongside the error is the documented sentinel: `""`
for string, `-1` for int and int64, `false` for bool, `0.0` for
float32 and float64. -/
theorem C7_typed_getter_sentinels (rad : RadCache) (key : String) (e : Err) (l : ZapLogger)
    (hl : rad.Logger = some l) :
    (rad.Db.get (rad.Options.Prefix ++ key) = .error e →
      (rad.GetString key).val = some ("", some e)) ∧
    (rad.Db.getInt (rad.Options.Prefix ++ key) = .error e →
      (rad.GetInt key).val = some (-1, some e)) ∧
    (rad.Db.getInt64 (rad.Options.Prefix ++ key) = .error e →
      (rad.GetInt64 key).val = some (-1, some e)) ∧
    (rad.Db.getBool (rad.Options.Prefix ++ key) = .error e →
      (rad.GetBool key).val = some (false, some e)) ∧
    (rad.Db.getFloat32 (rad.Options.Prefix ++ key) = .error e →
      (rad.GetFloat32 key).val = some (0.0, some e)) ∧
    (rad.Db.getFloat64 (rad.Options.Prefix ++ key) = .error e →
      (rad.GetFloat64 key).val = some (0.0, some e)) := by
  refine ⟨fun h => ?_, fun h => ?_, fun h => ?_, fun h => ?_, fun h => ?_, fun h => ?_⟩
  · simp [RadCache.GetString, h, RadCache.Error, hl, Eff.continues]
  · simp [RadCache.GetInt, h, zapError, hl, Eff.continues]
  · simp [RadCache.GetInt64, h, zapError, hl, Eff.continues]
  · simp [RadCache.GetBool, h, zapError, hl, Eff.continues]
  · simp [RadCache.GetFloat32, h, zapError, hl, Eff.continues]
  · simp [RadCache.GetFloat64, h, zapError, hl, Eff.continues]

/-- Witness for C7 at a concrete handle over a failing store. -/
theorem C7_typed_getter_sentinels_witness :
    ((radWithSink (failClient "miss")).GetString "k").val = some ("", some "miss") ∧
    ((radWithSink (failClient "miss")).GetInt "k").val = some (-1, some "miss") ∧
    ((radWithSink (failClient "miss")).GetFloat32 "k").val = some (0.0, some "miss") := by
  have h := C7_typed_getter_sentinels (radWithSink (failClient "miss")) "k" "miss" () rfl
  exact ⟨h.1 rfl, h.2.1 rfl, h.2.2.2.2.1 rfl⟩

/-- C6: whenever a diagnostic sink is attached (so the underlying
typed getter returns instead of terminating the process), every
`getXOrDefault` returns the caller-supplied fallback on any store
error and the fetched value otherwise; its return type carries no
error channel, so no error is surfaced. -/
theorem C6_get_or_default (rad : RadCache) (key : String) (s : String) (i : Int)
    (b : Bool) (x : Float) (l : ZapLogger) (hl : rad.Logger = some l) :
    (rad.GetStringOrDefault key s).val
      = some (match rad.Db.get (rad.Options.Prefix ++ key) with
              | .error _ => s | .ok r => r) ∧
    (rad.GetIntOrDefault key i).val
      = some (match rad.Db.getInt (rad.Options.Prefix ++ key) with
              | .error _ => i | .ok n => n) ∧
    (rad.GetInt64OrDefault key i).val
      = some (match rad.Db.getInt64 (rad.Options.Prefix ++ key) with
              | .error _ => i | .ok n => n) ∧
    (rad.GetBoolOrDefault key b).val
      = some (match rad.Db.getBool (rad.Options.Prefix ++ key) with
              | .error _ => b | .ok v => v) ∧
    (rad.GetFloat32OrDefault key x).val
      = some (match rad.Db.getFloat32 (rad.Options.Prefix ++ key) with
              | .error _ => x | .ok v => v) ∧
    (rad.GetFloat64OrDefault key x).val
      = some (match rad.Db.getFloat64 (rad.Options.Prefix ++ key) with
              | .error _ => x | .ok v => v) := by
  refine ⟨?_, ?_, ?_, ?_, ?_, ?_⟩
  · cases h : rad.Db.get (rad.Options.Prefix ++ key) <;>
      simp [RadCache.GetStringOrDefault, RadCache.GetString, h, RadCache.Error, hl,
        Eff.continues]
  · cases h : rad.Db.getInt (rad.Options.Prefix ++ key) <;>
      simp [RadCache.GetIntOrDefault, RadCache.GetInt, h, zapError, hl, Eff.continues]
  · cases h : rad.Db.getInt64 (rad.Options.Prefix ++ key) <;>
      simp [RadCache.GetInt64OrDefault, RadCache.GetInt64, h, zapError, hl, Eff.continues]
  · cases h : rad.Db.getBool (rad.Options.Prefix ++ key) <;>
      simp [RadCache.GetBoolOrDefault, RadCache.GetBool, h, zapError, hl, Eff.continues]
  · cases h : rad.Db.getFloat32 (rad.Options.Prefix ++ key) <;>
      simp [RadCache.GetFloat32OrDefault, RadCache.GetFloat32, h, zapError, hl,
        Eff.continues]
  · cases h : rad.Db.getFloat64 (rad.Options.Prefix ++ key) <;>
      simp [RadCache.GetFloat64OrDefault, RadCache.GetFloat64, h, zapError, hl,
        Eff.continues]

/-- Witness for C6: the fallback is returned on a failing store and
the fetched value on a successful one. -/
theorem C6_get_or_default_witness :
    ((radWithSink (failClient "miss")).GetIntOrDefault "k" 7).val = some 7 ∧
    ((radWithSink okClient).GetIntOrDefault "k" 7).val = some 42 :=
  ⟨(C6_get_or_default (radWithSink (failClient "miss")) "k" "" 7 false 0.0 () rfl).2.1,
   (C6_get_or_default (radWithSink okClient) "k" "" 7 false 0.0 () rfl).2.1⟩

/-- C4: when marshalling the value fails, the generic `Set` issues no
store call (so any store state is left unchanged), and — when a
diagnostic sink is attached, so the report returns — the serialization
error is routed to the sink and the returned command carries the same
error. -/
theorem C4_marshal_failure_no_store_call (rad : RadCache) (key : String) (value : GoVal)
    (exp : Duration) (e : Err) (hm : (rad.Marshal value).2 = some e) :
    (rad.Set key value exp).calls = [] ∧
    (∀ st : StoreState, applyCalls st (rad.Set key value exp).calls = st) ∧
    (∀ l, rad.Logger = some l →
      (rad.Set key value exp).eff = Eff.sink e ∧
      (rad.Set key value exp).val = some { err := some e }) := by
  rcases hp : rad.Marshal value with ⟨t, oe⟩
  rw [hp] at hm
  simp only at hm
  subst hm
  refine ⟨by simp [RadCache.Set, hp], fun st => by simp [RadCache.Set, hp, applyCalls],
    fun l hl => ?_⟩
  simp [RadCache.Set, hp, RadCache.Error, hl, Eff.continues]

/-- Witness for C4 at a concrete unencodable value. -/
theorem C4_marshal_failure_no_store_call_witness :
    ((radWithSink okClient).Set "k" (.unencodable "cyclic") 0).calls = [] ∧
    ((radWithSink okClient).Set "k" (.unencodable "cyclic") 0).eff = Eff.sink "cyclic" := by
  have h := C4_marshal_failure_no_store_call (radWithSink okClient) "k"
    (.unencodable "cyclic") 0 "cyclic" rfl
  exact ⟨h.1, (h.2.2 () rfl).1⟩

/-- C10: `DelAny` prefixes every logical key and issues exactly one
batched `DEL` covering all of them; a failure is returned to the
caller and — when a diagnostic sink is attached — routed to it. -/
theorem C10_del_any_batched (rad : RadCache) (ks : List String) :
    (rad.DelAny ks).calls = [.del (ks.map (fun k => rad.Options.Prefix ++ k))] ∧
    (∀ l e, rad.Logger = some l →
      rad.Db.del (ks.map (fun k => rad.Options.Prefix ++ k)) = some e →
      (rad.DelAny ks).eff = Eff.sink e ∧ (rad.DelAny ks).val = some (some e)) ∧
    (rad.Db.del (ks.map (fun k => rad.Options.Prefix ++ k)) = Option.none →
      (rad.DelAny ks).val = some Option.none ∧ (rad.DelAny ks).eff = Eff.none) := by
  refine ⟨?_, fun l e hl h => ?_, fun h => ?_⟩
  · simp only [RadCache.DelAny, foldl_append_singleton, List.nil_append]
    cases h : rad.Db.del (ks.map (fun k => rad.Options.Prefix ++ k)) <;> simp [h]
  · simp only [RadCache.DelAny, foldl_append_singleton, List.nil_append]
    simp [h, RadCache.Error, hl, Eff.continues]
  · simp only [RadCache.DelAny, foldl_append_singleton, List.nil_append]
    simp [h]

/-- Witness for C10 over a failing store at two concrete keys. -/
theorem C10_del_any_batched_witness :
    ((radWithSink (failClient "down")).DelAny ["a", "b"]).calls
      = [.del ["rad_a", "rad_b"]] ∧
    ((radWithSink (failClient "down")).DelAny ["a", "b"]).eff = Eff.sink "down" := by
  have h := C10_del_any_batched (radWithSink (failClient "down")) ["a", "b"]
  exact ⟨h.1, (h.2.1 () "down" rfl rfl).1⟩

/-- Counterexample to C1 as stated: with a diagnostic sink attached,
`SetString` against a failing store returns the store error to the
caller through the command result, yet routes nothing to the sink —
a failing typed-set operation whose error is not "simultaneously
routed to the diagnostic sink". -/
theorem C1_counterexample :
    ((radWithSink (failClient "boom")).SetString "k" "v" 0).val
      = some { err := some "boom" } ∧
    ((radWithSink (failClient "boom")).SetString "k" "v" 0).eff = Eff.none := by
  exact ⟨rfl, rfl⟩

/-- C1 (amended): with a diagnostic sink attached,
* the generic `Set`'s serialization failures, the generic `Get`'s
  store-level failures, every typed getter's failures, and `Del` /
  `DelAny` failures are returned to the immediate caller and
  simultaneously routed to the diagnostic sink;
* the typed setters return the store's command (carrying any store
  error) without routing anything to the sink, and the generic `Get`
  returns a deserialization failure without routing it;
* the `getXOrDefault` family swallows the error and substitutes the
  caller-supplied fallback. -/
theorem C1_error_propagation (rad : RadCache) (key : String) (ks : List String)
    (s : String) (i : Int) (gv : GoVal) (exp : Duration) (e : Err) (l : ZapLogger)
    (hl : rad.Logger = some l) :
    ((rad.Marshal gv).2 = some e → (rad.Set key gv exp).eff = Eff.sink e ∧
      (rad.Set key gv exp).val = some { err := some e }) ∧
    (rad.Db.get (rad.Options.Prefix ++ key) = .error e →
      (rad.Get key).eff = Eff.sink e ∧ (rad.Get key).val = some (Option.none, some e) ∧
      (rad.GetString key).eff = Eff.sink e ∧
      (rad.GetString key).val = some ("", some e)) ∧
    (rad.Db.getInt (rad.Options.Prefix ++ key) = .error e →
      (rad.GetInt key).eff = Eff.sink e ∧ (rad.GetInt key).val = some (-1, some e)) ∧
    (rad.Db.getInt64 (rad.Options.Prefix ++ key) = .error e →
      (rad.GetInt64 key).eff = Eff.sink e ∧
      (rad.GetInt64 key).val = some (-1, some e)) ∧
    (rad.Db.getBool (rad.Options.Prefix ++ key) = .error e →
      (rad.GetBool key).eff = Eff.sink e ∧
      (rad.GetBool key).val = some (false, some e)) ∧
    (rad.Db.getFloat32 (rad.Options.Prefix ++ key) = .error e →
      (rad.GetFloat32 key).eff = Eff.sink e ∧
      (rad.GetFloat32 key).val = some (0.0, some e)) ∧
    (rad.Db.getFloat64 (rad.Options.Prefix ++ key) = .error e →
      (rad.GetFloat64 key).eff = Eff.sink e ∧
      (rad.GetFloat64 key).val = some (0.0, some e)) ∧
    (rad.Db.del [rad.Options.Prefix ++ key] = some e →
      (rad.Del key).eff = Eff.sink e ∧ (rad.Del key).val = some (some e)) ∧
    (rad.Db.del (ks.map (fun k => rad.Options.Prefix ++ k)) = some e →
      (rad.DelAny ks).eff = Eff.sink e ∧ (rad.DelAny ks).val = some (some e)) ∧
    ((rad.SetString key s exp).val
        = some (rad.Db.set (rad.Options.Prefix ++ key) (.str s) exp) ∧
      (rad.SetString key s exp).eff = Eff.none) ∧
    (∀ t, rad.Db.get (rad.Options.Prefix ++ key) = .ok t →
      (rad.Get key).val = some (rad.UnMarshal t) ∧ (rad.Get key).eff = Eff.none) ∧
    ((rad.GetIntOrDefault key i).val
      = some (match rad.Db.getInt (rad.Options.Prefix ++ key) with
              | .error _ => i | .ok n => n)) := by
  refine ⟨fun hm => ?_, fun h => ?_, fun h => ?_, fun h => ?_, fun h => ?_, fun h => ?_,
    fun h => ?_, fun h => ?_, fun h => ?_, ⟨rfl, rfl⟩, fun t h => ?_, ?_⟩
  · rcases hp : rad.Marshal gv with ⟨t, oe⟩
    rw [hp] at hm
    simp only at hm
    subst hm
    constructor <;> simp [RadCache.Set, hp, RadCache.Error, hl, Eff.continues]
  · refine ⟨?_, ?_, ?_, ?_⟩ <;>
      simp [RadCache.Get, RadCache.GetString, h, RadCache.Error, hl, Eff.continues]
  · constructor <;> simp [RadCache.GetInt, h, zapError, hl, Eff.continues]
  · constructor <;> simp [RadCache.GetInt64, h, zapError, hl, Eff.continues]
  · constructor <;> simp [RadCache.GetBool, h, zapError, hl, Eff.continues]
  · constructor <;> simp [RadCache.GetFloat32, h, zapError, hl, Eff.continues]
  · constructor <;> simp [RadCache.GetFloat64, h, zapError, hl, Eff.continues]
  · constructor <;> simp [RadCache.Del, h, RadCache.Error, hl, Eff.continues]
  · constructor <;>
      (simp only [RadCache.DelAny, foldl_append_singleton, List.nil_append];
       simp [h, RadCache.Error, hl, Eff.continues])
  · constructor <;> simp [RadCache.Get, h]
  · cases h : rad.Db.getInt (rad.Options.Prefix ++ key) <;>
      simp [RadCache.GetIntOrDefault, RadCache.GetInt, h, zapError, hl, Eff.continues]

/-- Witness for C1 (amended) at concrete failing and succeeding stores. -/
theorem C1_error_propagation_witness :
    ((radWithSink (failClient "boom")).GetInt "k").eff = Eff.sink "boom" ∧
    ((radWithSink badTextClient).Get "k").eff = Eff.none ∧
    ((radWithSink okClient).Set "k" (.unencodable "cyclic") 0).eff = Eff.sink "cyclic" := by
  refine ⟨((C1_error_propagation (radWithSink (failClient "boom")) "k" [] "" 0 (.json .null)
    0 "boom" () rfl).2.2.1 rfl).1, ?_, ?_⟩
  · exact (((C1_error_propagation (radWithSink badTextClient) "k" [] "" 0 (.json .null) 0 "e"
      () rfl).2.2.2.2.2.2.2.2.2.2.1) "x" rfl).2
  · exact ((C1_error_propagation (radWithSink okClient) "k" [] "" 0 (.unencodable "cyclic")
      0 "cyclic" () rfl).1 rfl).1

/-! ### Round trip of the JSON serializer and parser (for C8) -/

theorem isDigit_ne (c x : Char) (h : c.isDigit = true) (hx : x.isDigit = false) : c ≠ x :=
  fun e => by rw [e, hx] at h; cases h

theorem digitChar_facts : ∀ d, d < 10 →
    (digitChar d).isDigit = true ∧ (digitChar d).toNat - 48 = d := by decide

theorem hexVal_hexDigitChar : ∀ h, h < 16 → hexVal (hexDigitChar h) = some h := by decide

theorem natChars_digits (n : Nat) : ∀ c ∈ natChars n, c.isDigit = true := by
  induction n using Nat.strong_induction_on with
  | _ n ih =>
    rw [natChars]
    split
    case isTrue h =>
      intro c hc
      simp only [List.mem_singleton] at hc
      subst hc
      exact (digitChar_facts n h).1
    case isFalse h =>
      intro c hc
      rw [List.mem_append] at hc
      rcases hc with hc | hc
      · exact ih (n / 10) (Nat.div_lt_self (by omega) (by omega)) c hc
      · simp only [List.mem_singleton] at hc
        subst hc
        exact (digitChar_facts (n % 10) (Nat.mod_lt _ (by omega))).1

theorem natChars_head (n : Nat) :
    ∃ d t, natChars n = d :: t ∧ d.isDigit = true := by
  induction n using Nat.strong_induction_on with
  | _ n ih =>
    rw [natChars]
    split
    case isTrue h => exact ⟨digitChar n, [], rfl, (digitChar_facts n h).1⟩
    case isFalse h =>
      obtain ⟨d, t, hdt, hdig⟩ := ih (n / 10) (Nat.div_lt_self (by omega) (by omega))
      exact ⟨d, t ++ [digitChar (n % 10)], by rw [hdt]; simp, hdig⟩

theorem natChars_foldl (n : Nat) (acc : Nat) :
    (natChars n).foldl (fun a c => a * 10 + (c.toNat - 48)) acc
      = acc * 10 ^ (natChars n).length + n := by
  induction n using Nat.strong_induction_on generalizing acc with
  | _ n ih =>
    rw [natChars]
    split
    case isTrue h =>
      simp [List.foldl, (digitChar_facts n h).2]
    case isFalse h =>
      rw [List.foldl_append, ih (n / 10) (Nat.div_lt_self (by omega) (by omega))]
      have hm := (digitChar_facts (n % 10) (Nat.mod_lt _ (by omega))).2
      simp only [List.foldl, List.length_append, List.length_singleton, hm]
      rw [pow_succ]
      have := Nat.div_add_mod n 10
      ring_nf
      omega

theorem parseDigits_append (ds rest : List Char) (acc : Nat)
    (hd : ∀ c ∈ ds, c.isDigit = true)
    (hr : ∀ c, rest.head? = some c → c.isDigit = false) :
    parseDigits (ds ++ rest) acc
      = (ds.foldl (fun a c => a * 10 + (c.toNat - 48)) acc, rest) := by
  induction ds generalizing acc with
  | nil =>
    cases rest with
    | nil => simp [parseDigits]
    | cons c cs => simp [parseDigits, hr c rfl]
  | cons c cs ih =>
    have hc := hd c (by simp)
    simp only [List.cons_append, parseDigits, hc, if_pos, List.foldl]
    exact ih _ fun x hx => hd x (List.mem_cons_of_mem c hx)

theorem parseDigits_natChars (n : Nat) (rest : List Char)
    (hr : ∀ c, rest.head? = some c → c.isDigit = false) :
    parseDigits (natChars n ++ rest) 0 = (n, rest) := by
  rw [parseDigits_append _ _ _ (natChars_digits n) hr, natChars_foldl]
  simp

theorem parseVal_digit_head (f : Nat) (c : Char) (cs : List Char) (h : c.isDigit = true) :
    parseVal (f + 1) (c :: cs)
      = some (.num ((parseDigits (c :: cs) 0).1 : Int), (parseDigits (c :: cs) 0).2) := by
  have h1 : c ≠ 'n' := isDigit_ne c 'n' h (by decide)
  have h2 : c ≠ 't' := isDigit_ne c 't' h (by decide)
  have h3 : c ≠ 'f' := isDigit_ne c 'f' h (by decide)
  have h4 : c ≠ '"' := isDigit_ne c '"' h (by decide)
  have h5 : c ≠ '[' := isDigit_ne c '[' h (by decide)
  have h6 : c ≠ '{' := isDigit_ne c '{' h (by decide)
  have h7 : c ≠ '-' := isDigit_ne c '-' h (by decide)
  unfold parseVal
  rw [if_neg h1, if_neg h2, if_neg h3, if_neg h4, if_neg h5, if_neg h6, if_neg h7, if_pos h]

theorem parseVal_intChars (f : Nat) (i : Int) (rest : List Char)
    (hr : ∀ c, rest.head? = some c → c.isDigit = false) :
    parseVal (f + 1) (intChars i ++ rest) = some (.num i, rest) := by
  unfold intChars
  split
  case isTrue hneg =>
    obtain ⟨d, t, hdt, hdig⟩ := natChars_head (-i).toNat
    have hh : headIsDigit (natChars (-i).toNat ++ rest) = true := by
      rw [hdt, List.cons_append]
      simpa [headIsDigit] using hdig
    rw [List.cons_append]
    unfold parseVal
    rw [if_neg (by decide), if_neg (by decide), if_neg (by decide), if_neg (by decide),
      if_neg (by decide), if_neg (by decide), if_pos rfl, if_pos hh,
      parseDigits_natChars _ _ hr]
    have hi : (((-i).toNat : Nat) : Int) = -i := Int.toNat_of_nonneg (by omega)
    simp [hi]
  case isFalse hpos =>
    obtain ⟨d, t, hdt, hdig⟩ := natChars_head i.toNat
    rw [hdt, List.cons_append, parseVal_digit_head f d (t ++ rest) hdig,
      ← List.cons_append, ← hdt, parseDigits_natChars _ _ hr]
    have hi : ((i.toNat : Nat) : Int) = i := Int.toNat_of_nonneg (by omega)
    simp [hi]

theorem psb_escape (s rest : List Char) :
    parseStringBody (escapeChars s ++ '"' :: rest) = some (s, rest) := by
  induction s with
  | nil => simp [escapeChars, parseStringBody]
  | cons c cs ih =>
    show parseStringBody ((escapeChar c ++ escapeChars cs) ++ '"' :: rest) = _
    rw [List.append_assoc]
    by_cases h1 : c = '"'
    · subst h1
      have he : escapeChar '"' = ['\\', '"'] := rfl
      rw [he]
      simp [parseStringBody, parseEscape, unescapeChar, ih]
    · by_cases h2 : c = '\\'
      · subst h2
        have he : escapeChar '\\' = ['\\', '\\'] := rfl
        rw [he]
        simp [parseStringBody, parseEscape, unescapeChar, ih]
      · by_cases h3 : c.toNat < 32
        · have he : escapeChar c
              = ['\\', 'u', '0', '0', hexDigitChar (c.toNat / 16), hexDigitChar (c.toNat % 16)] := by
            simp [escapeChar, h1, h2, h3]
          rw [he]
          have h00 : hexVal '0' = some 0 := by decide
          have hhi := hexVal_hexDigitChar (c.toNat / 16) (by omega)
          have hlo := hexVal_hexDigitChar (c.toNat % 16) (by omega)
          simp [parseStringBody, parseEscape, h00, hhi, hlo, ih]
          rw [show c.toNat / 16 * 16 + c.toNat % 16 = c.toNat by omega, Char.ofNat_toNat]
        · have he : escapeChar c = [c] := by simp [escapeChar, h1, h2, h3]
          rw [he]
          simp [parseStringBody, h1, h2, h3, ih]

theorem renderJ_head (v : Json) : ∃ c t, renderJ v = c :: t ∧ c ≠ ']' := by
  cases v with
  | null => exact ⟨'n', _, rfl, by decide⟩
  | bool b =>
    cases b
    · exact ⟨'f', _, rfl, by decide⟩
    · exact ⟨'t', _, rfl, by decide⟩
  | num i =>
    simp only [renderJ, intChars]
    split
    · exact ⟨'-', _, rfl, by decide⟩
    · obtain ⟨d, t, hdt, hdig⟩ := natChars_head i.toNat
      exact ⟨d, t, hdt, isDigit_ne d ']' hdig (by decide)⟩
  | str s => exact ⟨'"', _, rfl, by decide⟩
  | arr es => exact ⟨'[', _, rfl, by decide⟩
  | obj fs => exact ⟨'{', _, rfl, by decide⟩

theorem renderElems_cons (x : Json) (xs : JElems) :
    ∃ t, renderElems (.cons x xs) = renderJ x ++ t := by
  cases xs with
  | nil => exact ⟨[], by simp [renderElems]⟩
  | cons y ys => exact ⟨',' :: renderElems (.cons y ys), by simp [renderElems]⟩

theorem renderFields_cons (k : String) (v : Json) (fs : JFields) :
    ∃ t, renderFields (.cons k v fs) = '"' :: t := by
  cases fs with
  | nil => exact ⟨escapeChars k.data ++ '"' :: ':' :: renderJ v, by simp [renderFields]⟩
  | cons k2 v2 fs2 =>
    exact ⟨escapeChars k.data ++ '"' :: ':'
        :: (renderJ v ++ ',' :: renderFields (.cons k2 v2 fs2)),
      by simp [renderFields]⟩

theorem parseVal_arr_branch (f : Nat) (cs : List Char) (h : ¬cs.head? = some ']') :
    parseVal (f + 1) ('[' :: cs) = arrFinish (parseElems f cs) := by
  unfold parseVal
  rw [if_neg (by decide), if_neg (by decide), if_neg (by decide), if_neg (by decide),
    if_pos rfl, if_neg h]

theorem parseVal_obj_branch (f : Nat) (cs : List Char) (h : ¬cs.head? = some '}') :
    parseVal (f + 1) ('{' :: cs) = objFinish (parseFields f cs) := by
  unfold parseVal
  rw [if_neg (by decide), if_neg (by decide), if_neg (by decide), if_neg (by decide),
    if_neg (by decide), if_pos rfl, if_neg h]

theorem renderJ_len_pos (v : Json) : 1 ≤ (renderJ v).length := by
  obtain ⟨c, t, h, _⟩ := renderJ_head v
  rw [h]
  simp

theorem sizeL_nil : sizeL .nil = 0 := by rw [sizeL]

theorem sizeF_nil : sizeF .nil = 0 := by rw [sizeF]

mutual
theorem sizeV_le : ∀ v : Json, sizeV v ≤ (renderJ v).length
  | .null => by simp [sizeV, renderJ]
  | .bool b => by cases b <;> simp [sizeV, renderJ]
  | .num i => by
    have h := renderJ_len_pos (.num i)
    simpa [sizeV] using h
  | .str s => by
    rw [sizeV, renderJ]
    simp only [List.length_cons, List.length_append, List.length_singleton]
    omega
  | .arr es => by
    have h := sizeL_le es
    rw [sizeV, renderJ]
    simp only [List.length_cons, List.length_append, List.length_singleton]
    omega
  | .obj fs => by
    have h := sizeF_le fs
    rw [sizeV, renderJ]
    simp only [List.length_cons, List.length_append, List.length_singleton]
    omega
theorem sizeL_le : ∀ es : JElems, sizeL es ≤ (renderElems es).length + 1
  | .nil => by
    rw [sizeL_nil]
    omega
  | .cons x .nil => by
    have h := sizeV_le x
    rw [sizeL, renderElems, sizeL_nil, Nat.max_zero]
    omega
  | .cons x (.cons y ys) => by
    have h1 := sizeV_le x
    have h2 := sizeL_le (JElems.cons y ys)
    have hm1 := Nat.le_max_left (sizeV x) (sizeL (JElems.cons y ys))
    have hm2 := Nat.le_max_right (sizeV x) (sizeL (JElems.cons y ys))
    rw [sizeL, renderElems]
    · simp only [List.length_append, List.length_cons]
      omega
    · simp
theorem sizeF_le : ∀ fs : JFields, sizeF fs ≤ (renderFields fs).length + 1
  | .nil => by
    rw [sizeF_nil]
    omega
  | .cons k v .nil => by
    have h := sizeV_le v
    rw [sizeF, renderFields, sizeF_nil, Nat.max_zero]
    simp only [List.length_cons, List.length_append]
    omega
  | .cons k v (.cons k2 v2 fs2) => by
    have h1 := sizeV_le v
    have h2 := sizeF_le (JFields.cons k2 v2 fs2)
    have hm1 := Nat.le_max_left (sizeV v) (sizeF (JFields.cons k2 v2 fs2))
    have hm2 := Nat.le_max_right (sizeV v) (sizeF (JFields.cons k2 v2 fs2))
    rw [sizeF, renderFields]
    · simp only [List.length_cons, List.length_append]
      omega
    · simp
end

theorem sizeV_pos (v : Json) : 1 ≤ sizeV v := by
  cases v <;> rw [sizeV] <;> omega

theorem sizeL_cons (x : Json) (xs : JElems) :
    sizeL (.cons x xs) = 1 + max (sizeV x) (sizeL xs) := by
  rw [sizeL]

theorem sizeF_cons (k : String) (v : Json) (fs : JFields) :
    sizeF (.cons k v fs) = 1 + max (sizeV v) (sizeF fs) := by
  rw [sizeF]

theorem renderElems_one (x : Json) : renderElems (.cons x .nil) = renderJ x := by
  rw [renderElems]

theorem renderElems_two (x y : Json) (ys : JElems) :
    renderElems (.cons x (.cons y ys))
      = renderJ x ++ ',' :: renderElems (.cons y ys) := by
  rw [renderElems]
  all_goals simp

theorem renderFields_one (k : String) (v : Json) :
    renderFields (.cons k v .nil)
      = '"' :: (escapeChars k.data ++ '"' :: ':' :: renderJ v) := by
  rw [renderFields]

theorem renderFields_two (k : String) (v : Json) (k2 : String) (v2 : Json) (fs : JFields) :
    renderFields (.cons k v (.cons k2 v2 fs))
      = ('"' :: (escapeChars k.data ++ '"' :: ':' :: renderJ v))
          ++ ',' :: renderFields (.cons k2 v2 fs) := by
  rw [renderFields]
  all_goals simp

/-- Parsing inverts rendering: the value parser, element-list parser
and field-list parser each recover what the renderer produced, given
fuel at least the structural size. -/
theorem parse_render (f : Nat) :
    (∀ v rest, sizeV v ≤ f → (∀ c, rest.head? = some c → c.isDigit = false) →
      parseVal f (renderJ v ++ rest) = some (v, rest)) ∧
    (∀ es rest, es ≠ JElems.nil → sizeL es ≤ f →
      parseElems f (renderElems es ++ ']' :: rest) = some (es, ']' :: rest)) ∧
    (∀ fs rest, fs ≠ JFields.nil → sizeF fs ≤ f →
      parseFields f (renderFields fs ++ '}' :: rest) = some (fs, '}' :: rest)) := by
  induction f with
  | zero =>
    refine ⟨fun v rest hv _ => absurd hv (by have := sizeV_pos v; omega),
      fun es rest hne hs => ?_, fun fs rest hne hs => ?_⟩
    · cases es with
      | nil => exact absurd rfl hne
      | cons x xs => rw [sizeL_cons] at hs; omega
    · cases fs with
      | nil => exact absurd rfl hne
      | cons k v fs2 => rw [sizeF_cons] at hs; omega
  | succ f ih =>
    obtain ⟨ihV, ihL, ihF⟩ := ih
    refine ⟨fun v rest hv hr => ?_, fun es rest hne hs => ?_, fun fs rest hne hs => ?_⟩
    · cases v with
      | null => simp [renderJ, parseVal, parseNull]
      | bool b => cases b <;> simp [renderJ, parseVal, parseTrue, parseFalseLit]
      | num i =>
        simp only [renderJ]
        exact parseVal_intChars f i rest hr
      | str s =>
        simp only [renderJ, List.cons_append, List.append_assoc, List.singleton_append,
          List.nil_append]
        simp [parseVal, psb_escape]
      | arr es =>
        cases es with
        | nil => simp [renderJ, renderElems, parseVal]
        | cons x xs =>
          rw [sizeV] at hv
          have hsz : sizeL (JElems.cons x xs) ≤ f := by omega
          have hL := ihL (JElems.cons x xs) rest (by simp) hsz
          obtain ⟨t0, ht0⟩ := renderElems_cons x xs
          obtain ⟨c0, t1, hc0, hne0⟩ := renderJ_head x
          have hhead : ¬(renderElems (JElems.cons x xs) ++ ']' :: rest).head? = some ']' := by
            rw [ht0, hc0]
            simp [hne0]
          simp only [renderJ, List.cons_append, List.append_assoc, List.singleton_append,
            List.nil_append]
          rw [parseVal_arr_branch f _ hhead, hL]
          simp [arrFinish]
      | obj fs =>
        cases fs with
        | nil => simp [renderJ, renderFields, parseVal]
        | cons k v fs2 =>
          rw [sizeV] at hv
          have hsz : sizeF (JFields.cons k v fs2) ≤ f := by omega
          have hF := ihF (JFields.cons k v fs2) rest (by simp) hsz
          obtain ⟨t0, ht0⟩ := renderFields_cons k v fs2
          have hhead : ¬(renderFields (JFields.cons k v fs2) ++ '}' :: rest).head? = some '}' := by
            rw [ht0]
            simp
          simp only [renderJ, List.cons_append, List.append_assoc, List.singleton_append,
            List.nil_append]
          rw [parseVal_obj_branch f _ hhead, hF]
          simp [objFinish]
    · cases es with
      | nil => exact absurd rfl hne
      | cons x xs =>
        cases xs with
        | nil =>
          rw [sizeL_cons, sizeL_nil, Nat.max_zero] at hs
          have hV := ihV x (']' :: rest) (by omega)
            (by intro c hc; simp at hc; subst hc; decide)
          rw [renderElems_one]
          simp only [parseElems, hV]
          simp
        | cons y ys =>
          rw [sizeL_cons] at hs
          have hm1 := Nat.le_max_left (sizeV x) (sizeL (JElems.cons y ys))
          have hm2 := Nat.le_max_right (sizeV x) (sizeL (JElems.cons y ys))
          have hV := ihV x (',' :: (renderElems (JElems.cons y ys) ++ ']' :: rest))
            (by omega) (by intro c hc; simp at hc; subst hc; decide)
          have hL2 := ihL (JElems.cons y ys) rest (by simp) (by omega)
          rw [renderElems_two]
          simp only [List.cons_append, List.append_assoc, List.nil_append]
          simp only [parseElems, hV]
          simp [hL2]
    · cases fs with
      | nil => exact absurd rfl hne
      | cons k v fs2 =>
        cases fs2 with
        | nil =>
          rw [sizeF_cons, sizeF_nil, Nat.max_zero] at hs
          have hV := ihV v ('}' :: rest) (by omega)
            (by intro c hc; simp at hc; subst hc; decide)
          rw [renderFields_one]
          simp only [List.cons_append, List.append_assoc, List.singleton_append,
            List.nil_append]
          simp only [parseFields, List.head?, List.tail]
          simp only [psb_escape, hV]
          simp
        | cons k2 v2 fs3 =>
          rw [sizeF_cons] at hs
          have hm1 := Nat.le_max_left (sizeV v) (sizeF (JFields.cons k2 v2 fs3))
          have hm2 := Nat.le_max_right (sizeV v) (sizeF (JFields.cons k2 v2 fs3))
          have hV := ihV v (',' :: (renderFields (JFields.cons k2 v2 fs3) ++ '}' :: rest))
            (by omega) (by intro c hc; simp at hc; subst hc; decide)
          have hF2 := ihF (JFields.cons k2 v2 fs3) rest (by simp) (by omega)
          rw [renderFields_two]
          simp only [List.cons_append, List.append_assoc, List.nil_append]
          simp only [parseFields, List.head?, List.tail]
          simp only [psb_escape, hV]
          simp [hF2]

theorem jsonUnmarshal_render (v : Json) :
    jsonUnmarshal (String.mk (renderJ v)) = .ok v := by
  unfold jsonUnmarshal
  have hsz : sizeV v ≤ (renderJ v).length + 1 := le_trans (sizeV_le v) (by omega)
  have h := (parse_render ((renderJ v).length + 1)).1 v [] hsz (by intro c hc; simp at hc)
  rw [List.append_nil] at h
  rw [show (String.mk (renderJ v)).data = renderJ v from rfl, h]

/-- C8: the generic-path serializer and deserializer form a round
trip: for every structured value `v`, deserializing the text
`Marshal` produces yields `v` back with no error. -/
theorem C8_marshal_unmarshal_roundtrip (rad rad2 : RadCache) (v : Json) :
    rad2.UnMarshal (rad.Marshal (.json v)).1 = (some v, Option.none) := by
  simp only [RadCache.Marshal, jsonMarshal]
  simp only [RadCache.UnMarshal, jsonUnmarshal_render]
